import Mathlib

/-!
# Verification of the Apocrypha document-retrieval core

Shallow embedding of `src/document_search.py` (the retrieval engine: scanner,
tokenizer, matcher, and the `looks_like_search` gate).

Modelling conventions:
* Python strings are Lean `String`s; per-character operations work on `String.data`.
  Python's Unicode-aware `str.lower` / `str.isalnum` are modelled at ASCII fidelity
  (`'A'..'Z'` fold to lowercase; alphanumeric means ASCII letter or digit), which is
  exact on all ASCII input.
* Python `set`s of tokens are modelled as deduplicated lists; membership agrees.
* Python's stable `list.sort` (Timsort) is modelled with `List.insertionSort`,
  which is also stable, over the same key relation `(-overlap, name)`.
* Python `int` slice bounds (`scored[:k]`) are modelled with `pyTake` over `Int`,
  reproducing Python slice semantics for negative bounds.
* Filesystem effects in `scan_dummy_data` become a pure function of an explicit
  `Filesystem` value: the entry list models the output of `root.glob("**/*")`,
  `stat = none` models an `OSError` from `entry.stat()`, and the ISO-formatted
  modification time (produced by the `datetime` library from OS data) is carried
  in the `Stat` as the environment-provided string. `entry.resolve()` is modelled
  as the identity: entry paths are taken to be already absolute and canonical.
  `sorted` over `Path` objects uses `PurePath.__lt__`, which compares the two
  paths' case-normalized component tuples (normalization is the identity for
  the POSIX flavour), not their raw strings; this is modelled by splitting each
  path on `/` (`pathParts`) and comparing the component lists lexicographically
  with code-point string order (`partsLe`).
* The float computation `round(st_size / 1024, 1)` is modelled in exact
  fixed-point arithmetic: `size_kb` holds ten times the rounded value (a whole
  number of tenths of KiB), rounded half-to-even, Python's rounding mode.
-/

namespace DocSearch

/-- ASCII model of Python `str.lower` applied to one character. -/
def toLowerChar (c : Char) : Char :=
  if 'A' ≤ c ∧ c ≤ 'Z' then Char.ofNat (c.toNat + 32) else c

/-- `text.lower()` as a character list. -/
def pyLower (s : String) : List Char := s.data.map toLowerChar

/-- ASCII model of Python `ch.isalnum()`. -/
def pyIsAlnum (c : Char) : Bool := c.isAlphanum

/-- Splitter with the semantics of Python `str.split()` on the separator
predicate `p`: maximal runs of non-separator characters, empty pieces dropped.
`cur` accumulates the current run in reverse. Structurally recursive so that
concrete inputs evaluate by `decide`. -/
def wordsByAux (p : Char → Bool) (cur : List Char) : List Char → List String
  | [] => if cur.isEmpty then [] else [cur.reverse.asString]
  | c :: cs =>
    if p c then
      if cur.isEmpty then wordsByAux p [] cs
      else cur.reverse.asString :: wordsByAux p [] cs
    else wordsByAux p (c :: cur) cs

/-- `_tokenize` from `document_search.py` line 69-70: lowercase, replace each
non-alphanumeric character by a space, split on whitespace, drop empties.
(After the replacement the only whitespace present is `' '`, so splitting on
`' '` is Python's `.split()` on the joined string.) -/
def tokenizeFn (text : String) : List String :=
  wordsByAux (fun c => c == ' ') []
    ((pyLower text).map fun ch => if pyIsAlnum ch then ch else ' ')

/-- `set(_tokenize(text))`: Python token sets are modelled as deduplicated
token lists; membership agrees with membership in the token list. -/
def tokenSet (text : String) : List String := (tokenizeFn text).dedup

/-- `subAt pat s`: `pat` occurs at the head of `s`. -/
def subAt : List Char → List Char → Bool
  | [], _ => true
  | _ :: _, [] => false
  | p :: ps, c :: cs => p == c && subAt ps cs

/-- `hasSub pat s`: Python's substring test `pat in s`. -/
def hasSub (pat : List Char) : List Char → Bool
  | [] => subAt pat []
  | c :: cs => subAt pat (c :: cs) || hasSub pat cs

/-- The specification's notion of "literal substring": `s` decomposes around `pat`. -/
def SubstrOf (pat s : List Char) : Prop := ∃ l r, s = l ++ pat ++ r

/-- `SEARCH_TRIGGER_KEYWORDS` from `document_search.py` lines 14-27. -/
def SEARCH_TRIGGER_KEYWORDS : List String :=
  ["find", "search", "show", "document", "doc", "contract", "invoice",
   "report", "handbook", "slide", "presentation", "prd"]

/-- `looks_like_search` from `document_search.py` lines 73-75: some trigger
keyword is an exact token of the text or a raw substring of its lowercase form. -/
def looks_like_search (query : String) : Bool :=
  SEARCH_TRIGGER_KEYWORDS.any fun k =>
    decide (k ∈ tokenSet query) || hasSub k.data (pyLower query)

/-- Lexicographic strict comparison of character lists by code point, the
order Python uses on `str`. Structurally recursive so it evaluates by `decide`. -/
def charListLt : List Char → List Char → Bool
  | _, [] => false
  | [], _ :: _ => true
  | c :: cs, d :: ds => decide (c < d) || (c == d && charListLt cs ds)

/-- Python string comparison `a <= b`: lexicographic by code point. -/
def strLe (a b : String) : Bool := !(charListLt b.data a.data)

/-- FileRecord: the metadata dict produced by the scanner
(`path`, `name`, `ext`, `size_kb`, `modified_iso`). -/
structure FileRecord where
  path : String
  name : String
  ext : String
  size_kb : Nat
  modified_iso : String
deriving Repr, DecidableEq

/-- The per-record score of `search_files` (`document_search.py` lines 84-88):
token-set overlap with the query's token set, with the substring fallback that
lifts a zero overlap to exactly 1 when some query token is a substring of the
lowercased name. `q_tokens` is the (deduplicated) query token set, computed
once per query as in the source. -/
def recScore (q_tokens : List String) (rec : FileRecord) : Nat :=
  let overlap := (q_tokens.filter fun t => decide (t ∈ tokenSet rec.name)).length
  if overlap == 0 && q_tokens.any (fun t => hasSub t.data (pyLower rec.name)) then 1
  else overlap

/-- The `scored` list built by the loop in `search_files` (lines 82-90):
pairs `(overlap, rec)` for exactly the records with positive score, in input
order. -/
def scoredList (query : String) (records : List FileRecord) :
    List (Nat × FileRecord) :=
  records.filterMap fun rec =>
    let ov := recScore (tokenSet query) rec
    if ov > 0 then some (ov, rec) else none

/-- The sort key relation of `scored.sort(key=lambda x: (-x[0], x[1].get("name", "")))`:
`x` precedes `y` when `x` has strictly larger overlap, or equal overlap and
lexicographically `≤` name. Non-strict and total, so a stable sort over it
models Python's stable sort over the key. -/
def pairRel (x y : Nat × FileRecord) : Prop :=
  y.1 < x.1 ∨ (x.1 = y.1 ∧ strLe x.2.name y.2.name = true)

instance : DecidableRel pairRel := fun x y =>
  @instDecidableOr _ _ (Nat.decLt y.1 x.1)
    (@instDecidableAnd _ _ (Nat.decEq x.1 y.1) (Bool.decEq _ _))

/-- Python list slice `l[:k]` for an `int` bound `k` (negative bounds count
from the end). -/
def pyTake (k : Int) (l : List α) : List α :=
  l.take (if 0 ≤ k then k.toNat else ((l.length : Int) + k).toNat)

/-- `search_files` from `document_search.py` lines 78-92. -/
def search_files (query : String) (records : List FileRecord) (k : Int := 5) :
    List FileRecord :=
  if query = "" ∨ records = [] then []
  else (pyTake k (List.insertionSort pairRel (scoredList query records))).map Prod.snd

/-- Successful result of `entry.stat()` plus the `datetime`-formatted
modification time (OS/library data, carried as given by the environment). -/
structure Stat where
  st_size : Nat
  modified_iso : String
deriving Repr, DecidableEq

/-- One entry yielded by `root.glob("**/*")`: its (absolute, canonical) path,
its base name, whether it is a regular file, and the result of `stat()`
(`none` models an `OSError`). -/
structure FSEntry where
  path : String
  name : String
  isFile : Bool
  stat : Option Stat
deriving Repr, DecidableEq

/-- The filesystem as seen by `scan_dummy_data`: whether the root exists and
is a directory, and the entries `glob("**/*")` yields (in arbitrary order;
the source sorts them). -/
structure Filesystem where
  rootExists : Bool
  rootIsDir : Bool
  entries : List FSEntry
deriving Repr

/-- `pathlib.PurePath.suffix`: the extension of the base name — from the last
dot, provided it is neither the leading character nor the final character. -/
def suffixOfName (name : String) : String :=
  match (name.data.reverse.findIdx? fun c => c == '.') with
  | none => ""
  | some j =>
    let i := name.data.length - 1 - j
    if 0 < i ∧ i < name.data.length - 1 then (name.data.drop i).asString else ""

/-- `round(st_size / 1024, 1)` in exact fixed-point arithmetic: the number of
tenths of KiB, i.e. `size * 10 / 1024` rounded half-to-even (Python's rounding
mode) to an integer. -/
def sizeKbOf (size : Nat) : Nat :=
  let n := size * 10
  let q := n / 1024
  let r := n % 1024
  if r < 512 then q
  else if 512 < r then q + 1
  else if q % 2 = 0 then q else q + 1

/-- The record dict built for one readable file (`document_search.py` lines 54-62). -/
def mkRecord (e : FSEntry) (st : Stat) : FileRecord :=
  { path := e.path
    name := e.name
    ext := (pyLower (suffixOfName e.name)).asString
    size_kb := sizeKbOf st.st_size
    modified_iso := st.modified_iso }

/-- The component sequence of a path, as `pathlib` sees it: the pieces between
`/` separators (empty pieces dropped, so duplicate slashes and the leading
root marker are normalized away uniformly; POSIX flavour, so no case folding). -/
def pathParts (p : String) : List String := wordsByAux (fun c => c == '/') [] p.data

/-- Lexicographic strict comparison of component sequences: tuple comparison
as Python performs it on `PurePath`s (componentwise code-point string order). -/
def partsLt : List String → List String → Bool
  | _, [] => false
  | [], _ :: _ => true
  | a :: as, b :: bs => charListLt a.data b.data || (a == b && partsLt as bs)

/-- Non-strict tuple comparison of component sequences. -/
def partsLe (xs ys : List String) : Bool := !(partsLt ys xs)

/-- Sort order of `sorted(root_path.glob("**/*"))`: `PurePath.__lt__` compares
the case-normalized component tuples of the two paths (identity normalization
on POSIX), not the raw path strings. -/
def entryRel (e₁ e₂ : FSEntry) : Prop :=
  partsLe (pathParts e₁.path) (pathParts e₂.path) = true

instance : DecidableRel entryRel := fun e₁ e₂ =>
  Bool.decEq (partsLe (pathParts e₁.path) (pathParts e₂.path)) true

/-- `scan_dummy_data` from `document_search.py` lines 40-66, as a pure function
of the modelled filesystem: empty unless the root exists and is a directory;
otherwise one record per regular file whose `stat` succeeded, in sorted path
order, files with failing `stat` silently skipped. -/
def scan_dummy_data (fs : Filesystem) : List FileRecord :=
  if fs.rootExists = true ∧ fs.rootIsDir = true then
    (List.insertionSort entryRel fs.entries).filterMap fun e =>
      if e.isFile then e.stat.map fun st => mkRecord e st else none
  else []

/-! ### Bridge lemmas: the executable comparisons agree with the mathematical orders -/

theorem charListLt_iff (cs ds : List Char) :
    charListLt cs ds = true ↔ List.Lex (· < ·) cs ds := by
  induction cs generalizing ds with
  | nil =>
    cases ds with
    | nil => simp [charListLt]
    | cons d ds => exact iff_of_true rfl List.Lex.nil
  | cons c cs ih =>
    cases ds with
    | nil => simp [charListLt]
    | cons d ds =>
      simp only [charListLt, Bool.or_eq_true, Bool.and_eq_true, decide_eq_true_eq,
        beq_iff_eq, ih]
      constructor
      · rintro (h | ⟨rfl, h⟩)
        · exact List.Lex.rel h
        · exact List.Lex.cons h
      · intro h
        cases h with
        | cons h => exact Or.inr ⟨rfl, h⟩
        | rel h => exact Or.inl h

theorem strLe_iff (a b : String) : strLe a b = true ↔ a ≤ b := by
  have h : (b < a) = List.Lex (· < ·) b.data a.data := by
    rw [String.lt_iff_toList_lt]; rfl
  simp only [strLe, Bool.not_eq_true', ← Bool.not_eq_true, charListLt_iff, ← h]
  exact not_lt

theorem strLe_total (a b : String) : strLe a b = true ∨ strLe b a = true := by
  simp only [strLe_iff]; exact le_total a b

theorem strLe_trans {a b c : String} (h₁ : strLe a b = true) (h₂ : strLe b c = true) :
    strLe a c = true := by
  rw [strLe_iff] at h₁ h₂ ⊢; exact le_trans h₁ h₂

instance : IsTotal (Nat × FileRecord) pairRel where
  total x y := by
    unfold pairRel
    rcases Nat.lt_trichotomy x.1 y.1 with h | h | h
    · exact Or.inr (Or.inl h)
    · rcases strLe_total x.2.name y.2.name with hs | hs
      · exact Or.inl (Or.inr ⟨h, hs⟩)
      · exact Or.inr (Or.inr ⟨h.symm, hs⟩)
    · exact Or.inl (Or.inl h)

instance : IsTrans (Nat × FileRecord) pairRel where
  trans x y z h₁ h₂ := by
    unfold pairRel at h₁ h₂ ⊢
    rcases h₁ with h₁ | ⟨e₁, s₁⟩
    · rcases h₂ with h₂ | ⟨e₂, _⟩
      · exact Or.inl (h₂.trans h₁)
      · exact Or.inl (e₂ ▸ h₁)
    · rcases h₂ with h₂ | ⟨e₂, s₂⟩
      · exact Or.inl (e₁ ▸ h₂)
      · exact Or.inr ⟨e₁.trans e₂, strLe_trans s₁ s₂⟩

theorem charListLt_strings (a b : String) : charListLt a.data b.data = true ↔ a < b := by
  rw [charListLt_iff, String.lt_iff_toList_lt]
  exact Iff.rfl

theorem partsLt_iff (xs ys : List String) :
    partsLt xs ys = true ↔ List.Lex (· < ·) xs ys := by
  induction xs generalizing ys with
  | nil =>
    cases ys with
    | nil => simp [partsLt]
    | cons b bs => exact iff_of_true rfl List.Lex.nil
  | cons a as ih =>
    cases ys with
    | nil => simp [partsLt]
    | cons b bs =>
      simp only [partsLt, Bool.or_eq_true, Bool.and_eq_true, beq_iff_eq, ih,
        charListLt_strings]
      constructor
      · rintro (h | ⟨rfl, h⟩)
        · exact List.Lex.rel h
        · exact List.Lex.cons h
      · intro h
        cases h with
        | cons h => exact Or.inr ⟨rfl, h⟩
        | rel h => exact Or.inl h

theorem partsLe_iff (xs ys : List String) : partsLe xs ys = true ↔ xs ≤ ys := by
  have h : (ys < xs) = List.Lex (· < ·) ys xs := rfl
  simp only [partsLe, Bool.not_eq_true', ← Bool.not_eq_true, partsLt_iff, ← h]
  exact not_lt

theorem partsLe_total (xs ys : List String) :
    partsLe xs ys = true ∨ partsLe ys xs = true := by
  simp only [partsLe_iff]
  exact le_total xs ys

theorem partsLe_trans {xs ys zs : List String} (h₁ : partsLe xs ys = true)
    (h₂ : partsLe ys zs = true) : partsLe xs zs = true := by
  rw [partsLe_iff] at h₁ h₂ ⊢
  exact le_trans h₁ h₂

instance : IsTotal FSEntry entryRel where
  total e₁ e₂ := partsLe_total (pathParts e₁.path) (pathParts e₂.path)

instance : IsTrans FSEntry entryRel where
  trans _ _ _ h₁ h₂ := partsLe_trans h₁ h₂

/-! ### Substring test: `hasSub` decides the specification's `SubstrOf` -/

theorem subAt_iff (pat s : List Char) : subAt pat s = true ↔ ∃ r, s = pat ++ r := by
  induction pat generalizing s with
  | nil => simp [subAt]
  | cons p ps ih =>
    cases s with
    | nil => simp [subAt]
    | cons c cs =>
      simp only [subAt, Bool.and_eq_true, beq_iff_eq, ih, List.cons_append,
        List.cons.injEq]
      constructor
      · rintro ⟨rfl, r, rfl⟩
        exact ⟨r, rfl, rfl⟩
      · rintro ⟨r, rfl, rfl⟩
        exact ⟨rfl, r, rfl⟩

theorem hasSub_iff (pat s : List Char) : hasSub pat s = true ↔ SubstrOf pat s := by
  unfold SubstrOf
  induction s with
  | nil =>
    rw [hasSub, subAt_iff]
    constructor
    · rintro ⟨r, hr⟩
      exact ⟨[], r, hr⟩
    · rintro ⟨l, r, hlr⟩
      rcases List.append_eq_nil.mp hlr.symm with ⟨h1, h2⟩
      rcases List.append_eq_nil.mp h1 with ⟨h3, h4⟩
      exact ⟨[], by simp_all⟩
  | cons c cs ih =>
    rw [hasSub, Bool.or_eq_true, subAt_iff, ih]
    constructor
    · rintro (⟨r, hr⟩ | ⟨l, r, hlr⟩)
      · exact ⟨[], r, by simpa using hr⟩
      · exact ⟨c :: l, r, by simp [hlr]⟩
    · rintro ⟨l, r, hlr⟩
      cases l with
      | nil => exact Or.inl ⟨r, by simpa using hlr⟩
      | cons x l =>
        rw [List.cons_append, List.cons_append] at hlr
        injection hlr with h₁ h₂
        exact Or.inr ⟨l, r, h₂⟩

instance (pat s : List Char) : Decidable (SubstrOf pat s) :=
  decidable_of_iff _ (hasSub_iff pat s)

/-! ### Tokenizer refinement: the source splitter matches the spec's wording -/

theorem pyIsAlnum_not_space {c : Char} (h : pyIsAlnum c = true) :
    c.isWhitespace = false ∧ (c == ' ') = false := by
  have hne : c ≠ ' ' ∧ c ≠ '\t' ∧ c ≠ '\r' ∧ c ≠ '\n' := by
    refine ⟨?_, ?_, ?_, ?_⟩ <;> rintro rfl <;> exact absurd h (by decide)
  refine ⟨?_, ?_⟩
  · simp [Char.isWhitespace, hne.1, hne.2.1, hne.2.2.1, hne.2.2.2]
  · simp [hne.1]

theorem wordsByAux_congr {p q : Char → Bool} (cs : List Char)
    (h : ∀ c ∈ cs, p c = q c) : ∀ cur, wordsByAux p cur cs = wordsByAux q cur cs := by
  induction cs with
  | nil => intro cur; rfl
  | cons c cs ih =>
    intro cur
    have hc : p c = q c := h c (List.mem_cons_self c cs)
    have ih' := ih fun c' hc' => h c' (List.mem_cons_of_mem _ hc')
    simp only [wordsByAux, hc, ih']

/-- The tokenizer as the specification words it: lowercase the text, replace
every non-alphanumeric character with whitespace, split on whitespace, drop
empty tokens. (Spec-side definition for the refinement claim C4.) -/
def specTokenize (text : String) : List String :=
  wordsByAux (fun c => c.isWhitespace) []
    ((pyLower text).map fun ch => if pyIsAlnum ch then ch else ' ')

theorem tokenizeFn_eq_specTokenize (s : String) : tokenizeFn s = specTokenize s := by
  unfold tokenizeFn specTokenize
  refine wordsByAux_congr _ ?_ []
  intro c hc
  rcases List.mem_map.mp hc with ⟨ch, _, rfl⟩
  by_cases ha : pyIsAlnum ch = true
  · rcases pyIsAlnum_not_space ha with ⟨h1, h2⟩
    simp [ha, h1, h2]
  · simp [ha]

/-! ### Scoring as the specification words it (spec-side definitions for C1) -/

/-- `overlap = |query_tokens ∩ name_tokens|`, literally as a finite-set
intersection cardinality. (Spec-side definition for the refinement claim C1.) -/
def specOverlap (query name : String) : Nat :=
  ((tokenizeFn query).toFinset ∩ (tokenizeFn name).toFinset).card

/-- The spec's per-record score: the set-intersection overlap, with the
substring fallback to exactly 1 when the overlap is 0 and some query token is
a literal substring of the lowercased name. (Spec-side definition for C1.) -/
def specScore (query name : String) : Nat :=
  if specOverlap query name = 0 ∧ ∃ t ∈ tokenizeFn query, SubstrOf t.data (pyLower name)
  then 1 else specOverlap query name

theorem dedup_filter_length {α : Type} [DecidableEq α] (l : List α) (p : α → Bool) :
    (l.filter p).dedup.length = (l.dedup.filter p).length := by
  have h₁ : ((l.filter p).dedup).Nodup := (l.filter p).nodup_dedup
  have h₂ : (l.dedup.filter p).Nodup := l.nodup_dedup.filter p
  refine List.Perm.length_eq ((List.perm_ext_iff_of_nodup h₁ h₂).mpr ?_)
  intro a
  simp [List.mem_dedup, List.mem_filter]

theorem specOverlap_eq (q n : String) :
    specOverlap q n = ((tokenSet q).filter fun t => decide (t ∈ tokenSet n)).length := by
  unfold specOverlap
  have h1 : (tokenizeFn q).toFinset ∩ (tokenizeFn n).toFinset
      = ((tokenizeFn q).filter fun t => decide (t ∈ tokenSet n)).toFinset := by
    ext t
    simp [List.mem_filter, tokenSet, List.mem_dedup]
  rw [h1, List.card_toFinset, tokenSet, dedup_filter_length]
  rfl

theorem specScore_eq (q : String) (r : FileRecord) :
    specScore q r.name = recScore (tokenSet q) r := by
  have hcond : (specOverlap q r.name = 0 ∧
        ∃ t ∈ tokenizeFn q, SubstrOf t.data (pyLower r.name))
      ↔ ((((tokenSet q).filter fun t => decide (t ∈ tokenSet r.name)).length == 0)
          && ((tokenSet q).any fun t => hasSub t.data (pyLower r.name))) = true := by
    rw [specOverlap_eq]
    simp [List.any_eq_true, hasSub_iff, tokenSet, List.mem_dedup]
  unfold specScore recScore
  simp only []
  exact if_congr hcond rfl (specOverlap_eq q r.name)

/-! ### Structure of `search_files` -/

/-- The `scored` list after the sort on `(-overlap, name)` (line 91). -/
def sortedScored (query : String) (records : List FileRecord) :
    List (Nat × FileRecord) :=
  List.insertionSort pairRel (scoredList query records)

/-- The surviving records in their final ranked order, before truncation. -/
def survivorsSorted (query : String) (records : List FileRecord) : List FileRecord :=
  (sortedScored query records).map Prod.snd

theorem mem_scoredList {q : String} {recs : List FileRecord} {x : Nat × FileRecord} :
    x ∈ scoredList q recs ↔
      ∃ rec ∈ recs, 0 < recScore (tokenSet q) rec ∧ x = (recScore (tokenSet q) rec, rec) := by
  unfold scoredList
  rw [List.mem_filterMap]
  constructor
  · rintro ⟨rec, hmem, hx⟩
    by_cases h : 0 < recScore (tokenSet q) rec
    · rw [if_pos h] at hx
      exact ⟨rec, hmem, h, (Option.some_injective _ hx).symm⟩
    · rw [if_neg h] at hx
      exact absurd hx (Option.noConfusion)
  · rintro ⟨rec, hmem, h, rfl⟩
    exact ⟨rec, hmem, by rw [if_pos h]⟩

theorem scoredList_fst {q : String} {recs : List FileRecord} {x : Nat × FileRecord}
    (hx : x ∈ scoredList q recs) :
    x.1 = recScore (tokenSet q) x.2 ∧ 0 < x.1 := by
  rcases mem_scoredList.mp hx with ⟨rec, _, hpos, rfl⟩
  exact ⟨rfl, hpos⟩

theorem recScore_nil (rec : FileRecord) : recScore [] rec = 0 := rfl

theorem scoredList_of_no_tokens {q : String} (h : tokenSet q = []) (recs : List FileRecord) :
    scoredList q recs = [] := by
  unfold scoredList
  rw [List.filterMap_eq_nil_iff]
  intro rec _
  rw [h, recScore_nil]
  rfl

theorem search_files_eq (q : String) (recs : List FileRecord) (k : Int) :
    search_files q recs k = (pyTake k (sortedScored q recs)).map Prod.snd := by
  unfold search_files
  split
  · next h =>
    rcases h with rfl | rfl
    · rw [sortedScored, scoredList_of_no_tokens (show tokenSet "" = [] by decide)]
      simp [pyTake]
    · rw [sortedScored, show scoredList q [] = [] from rfl]
      simp [pyTake]
  · rfl

theorem pyTake_eq_take (k : Int) (l : List α) :
    pyTake k l = l.take (if 0 ≤ k then k.toNat else ((l.length : Int) + k).toNat) := rfl

theorem mem_search_files {q : String} {recs : List FileRecord} {k : Int} {r : FileRecord}
    (h : r ∈ search_files q recs k) :
    ∃ rec ∈ recs, 0 < recScore (tokenSet q) rec ∧ r = rec := by
  rw [search_files_eq, List.mem_map] at h
  rcases h with ⟨x, hx, rfl⟩
  have hx' : x ∈ sortedScored q recs := List.mem_of_mem_take (by rw [← pyTake_eq_take]; exact hx)
  have hx'' : x ∈ scoredList q recs := (List.perm_insertionSort pairRel _).mem_iff.mp hx'
  rcases mem_scoredList.mp hx'' with ⟨rec, hmem, hpos, rfl⟩
  exact ⟨rec, hmem, hpos, rfl⟩

theorem sortedScored_sorted (q : String) (recs : List FileRecord) :
    List.Sorted pairRel (sortedScored q recs) :=
  List.sorted_insertionSort pairRel (scoredList q recs)

/-! ### Blank queries produce no tokens -/

theorem wordsByAux_all_sep {p : Char → Bool} :
    ∀ cs, (∀ c ∈ cs, p c = true) → wordsByAux p [] cs = []
  | [], _ => rfl
  | c :: cs, h => by
    have hc := h c (List.mem_cons_self c cs)
    simp only [wordsByAux, hc, List.isEmpty_nil, if_true]
    exact wordsByAux_all_sep cs fun c' h' => h c' (List.mem_cons_of_mem _ h')

theorem tokenizeFn_of_blank {q : String} (h : ∀ c ∈ q.data, c.isWhitespace = true) :
    tokenizeFn q = [] := by
  unfold tokenizeFn
  apply wordsByAux_all_sep
  intro c hc
  rcases List.mem_map.mp hc with ⟨c', hc', rfl⟩
  simp only [pyLower, List.mem_map] at hc'
  rcases hc' with ⟨c₀, hc₀, rfl⟩
  have hw := h c₀ hc₀
  simp only [Char.isWhitespace, Bool.or_eq_true, decide_eq_true_eq] at hw
  rcases hw with ((rfl | rfl) | rfl) | rfl <;> decide

theorem tokenSet_of_blank {q : String} (h : ∀ c ∈ q.data, c.isWhitespace = true) :
    tokenSet q = [] := by
  rw [tokenSet, tokenizeFn_of_blank h]
  rfl

/-! ### Sample records used in concrete checks -/

def recInvoice1 : FileRecord := ⟨"p1", "Invoice_2023.pdf", ".pdf", 0, ""⟩

def recInvoice2 : FileRecord := ⟨"p2", "invoice_draft.txt", ".txt", 0, ""⟩

def recReport : FileRecord := ⟨"p3", "report.csv", ".csv", 0, ""⟩

/-! ### The claims -/

/-- C1: for every non-empty query and every record, `search_files` scores the
record exactly as the spec words it (`specScore`: set-intersection overlap,
with a substring fallback to exactly 1 when the overlap is 0), and records
whose score is still 0 after both checks appear nowhere in the result. -/
theorem C1_scoring :
    (∀ (q : String) (r : FileRecord), q ≠ "" →
        specScore q r.name = recScore (tokenSet q) r) ∧
      ∀ (q : String) (recs : List FileRecord) (k : Int) (r : FileRecord),
        q ≠ "" → r ∈ search_files q recs k → specScore q r.name ≠ 0 := by
  constructor
  · intro q r _
    exact specScore_eq q r
  · intro q recs k r _ hr
    rcases mem_search_files hr with ⟨rec, _, hpos, rfl⟩
    rw [specScore_eq]
    omega

theorem C1_scoring_witness :
    ("invoice" ≠ "" ∧
        specScore "invoice" recInvoice1.name = recScore (tokenSet "invoice") recInvoice1) ∧
      specScore "invoice" recInvoice1.name ≠ 0 :=
  ⟨⟨by decide, C1_scoring.1 "invoice" recInvoice1 (by decide)⟩,
   C1_scoring.2 "invoice" [recInvoice1] 5 recInvoice1 (by decide) (by decide)⟩

/-- C2: the result of `search_files` is sorted by the key `(-overlap, name)` —
strictly higher overlap first, ties in ascending lexicographic name order (the
embedding is a function, so the order is deterministic); and on records named
`Invoice_2023.pdf`, `invoice_draft.txt`, `report.csv` with query `invoice`
the result is exactly the first two, in that order. -/
theorem C2_ranking :
    (∀ (q : String) (recs : List FileRecord) (k : Int),
        (search_files q recs k).Pairwise fun a b =>
          recScore (tokenSet q) b < recScore (tokenSet q) a ∨
            (recScore (tokenSet q) a = recScore (tokenSet q) b ∧ a.name ≤ b.name)) ∧
      search_files "invoice" [recInvoice1, recInvoice2, recReport] 5 =
        [recInvoice1, recInvoice2] := by
  constructor
  · intro q recs k
    rw [search_files_eq, List.pairwise_map]
    have htake : (pyTake k (sortedScored q recs)).Pairwise pairRel :=
      List.Pairwise.sublist (by rw [pyTake_eq_take]; exact List.take_sublist _ _)
        (sortedScored_sorted q recs)
    refine htake.imp_of_mem ?_
    intro x y hx hy hxy
    have hmem : ∀ {z : Nat × FileRecord}, z ∈ pyTake k (sortedScored q recs) →
        z ∈ scoredList q recs := by
      intro z hz
      refine (List.perm_insertionSort pairRel _).mem_iff.mp ?_
      exact List.mem_of_mem_take (by rw [← pyTake_eq_take]; exact hz)
    rcases scoredList_fst (hmem hx) with ⟨hx1, _⟩
    rcases scoredList_fst (hmem hy) with ⟨hy1, _⟩
    rcases hxy with h | ⟨h, hname⟩
    · exact Or.inl (hx1 ▸ hy1 ▸ h)
    · exact Or.inr ⟨hx1 ▸ hy1 ▸ h, (strLe_iff _ _).mp hname⟩
  · decide

/-- C3: with a positive `k`, the result has length at most `k`; when at least
`k` records score positively it is exactly the first `k` of the ranked
survivors; when fewer survive, all of them are returned. -/
theorem C3_truncation :
    ∀ (q : String) (recs : List FileRecord) (k : Int), 0 < k →
      (search_files q recs k).length ≤ k.toNat ∧
        (k.toNat ≤ (scoredList q recs).length →
          search_files q recs k = (survivorsSorted q recs).take k.toNat ∧
            (search_files q recs k).length = k.toNat) ∧
        ((scoredList q recs).length < k.toNat →
          search_files q recs k = survivorsSorted q recs) := by
  intro q recs k hk
  have hlen : (sortedScored q recs).length = (scoredList q recs).length :=
    (List.perm_insertionSort pairRel _).length_eq
  have heq : search_files q recs k = ((sortedScored q recs).take k.toNat).map Prod.snd := by
    rw [search_files_eq, pyTake_eq_take, if_pos (le_of_lt hk)]
  refine ⟨?_, ?_, ?_⟩
  · rw [heq, List.length_map, List.length_take]
    exact min_le_left _ _
  · intro hge
    refine ⟨?_, ?_⟩
    · rw [heq, survivorsSorted, List.map_take]
    · rw [heq, List.length_map, List.length_take, hlen]
      exact Nat.min_eq_left hge
  · intro hlt
    rw [heq, survivorsSorted, List.take_of_length_le (by omega)]

theorem C3_truncation_witness :
    (0 : Int) < 1 ∧
      (search_files "invoice" [recInvoice1, recInvoice2, recReport] 1).length ≤
        (1 : Int).toNat ∧
      search_files "invoice" [recInvoice1, recInvoice2, recReport] 1 =
        (survivorsSorted "invoice" [recInvoice1, recInvoice2, recReport]).take
          (1 : Int).toNat :=
  ⟨by decide, (C3_truncation "invoice" [recInvoice1, recInvoice2, recReport] 1 (by decide)).1,
   ((C3_truncation "invoice" [recInvoice1, recInvoice2, recReport] 1 (by decide)).2.1
     (by decide)).1⟩

/-- C4: the tokenizer lowercases the text, replaces every non-alphanumeric
character with whitespace, splits on whitespace and drops empty tokens
(`specTokenize`, worded from the spec), and — being one function applied to
both the query and each record's name — it satisfies
`tokenize("Q4_Report-2023.pdf") = ["q4", "report", "2023", "pdf"]`. -/
theorem C4_tokenizer :
    (∀ s : String, tokenizeFn s = specTokenize s) ∧
      tokenizeFn "Q4_Report-2023.pdf" = ["q4", "report", "2023", "pdf"] :=
  ⟨tokenizeFn_eq_specTokenize, by decide⟩

/-- C5: `search_files` returns the empty sequence for every empty-or-blank
query (whatever the records and `k`), and for the empty record list (whatever
the query and `k`). -/
theorem C5_empty_inputs :
    (∀ (q : String) (recs : List FileRecord) (k : Int),
        (∀ c ∈ q.data, c.isWhitespace = true) → search_files q recs k = []) ∧
      ∀ (q : String) (k : Int), search_files q [] k = [] := by
  constructor
  · intro q recs k h
    rw [search_files_eq, sortedScored, scoredList_of_no_tokens (tokenSet_of_blank h)]
    simp [pyTake]
  · intro q k
    rw [search_files_eq, sortedScored, show scoredList q [] = [] from rfl]
    simp [pyTake]

theorem C5_empty_inputs_witness :
    (search_files "" [recInvoice1] 5 = [] ∧ search_files " " [recInvoice1] 5 = []) ∧
      search_files "anything" [] 5 = [] :=
  ⟨⟨C5_empty_inputs.1 "" [recInvoice1] 5 (by decide),
    C5_empty_inputs.1 " " [recInvoice1] 5 (by decide)⟩,
   C5_empty_inputs.2 "anything" 5⟩

/-- C10: at `k = 0` (outside the spec's positive-`k` precondition),
`search_files` returns the empty sequence for every query and record list, so
the length bound `length ≤ max(k, 0)` also holds there. -/
theorem C10_k_zero :
    ∀ (q : String) (recs : List FileRecord),
      search_files q recs 0 = [] ∧ (search_files q recs 0).length ≤ (max (0 : Int) 0).toNat := by
  intro q recs
  have h : search_files q recs 0 = [] := by
    rw [search_files_eq]
    simp [pyTake]
  exact ⟨h, by rw [h]; simp⟩

/-- C6: `looks_like_search` is true exactly when some keyword of the fixed
trigger set occurs as an exact token of the tokenized text or as a raw
substring of the lowercased text. It is a pure function, and `search_files`
does not mention it, so it has no effect on scoring. -/
theorem C6_looks_like_search :
    ∀ text : String,
      looks_like_search text = true ↔
        ∃ kw ∈ SEARCH_TRIGGER_KEYWORDS,
          kw ∈ tokenizeFn text ∨ SubstrOf kw.data (pyLower text) := by
  intro text
  unfold looks_like_search
  rw [List.any_eq_true]
  simp only [Bool.or_eq_true, decide_eq_true_eq, hasSub_iff, tokenSet, List.mem_dedup]

/-! ### Scanner helpers -/

theorem scan_unfold (fs : Filesystem) (h1 : fs.rootExists = true) (h2 : fs.rootIsDir = true) :
    scan_dummy_data fs = (List.insertionSort entryRel fs.entries).filterMap
      fun e => if e.isFile then e.stat.map fun st => mkRecord e st else none := by
  unfold scan_dummy_data
  rw [if_pos ⟨h1, h2⟩]

theorem isSome_scanStep (e : FSEntry) :
    (if e.isFile then e.stat.map fun st => mkRecord e st else none).isSome
      = (e.isFile && e.stat.isSome) := by
  cases h : e.isFile <;> cases hs : e.stat <;> simp [h, hs]

theorem scan_length (fs : Filesystem) (h1 : fs.rootExists = true) (h2 : fs.rootIsDir = true) :
    (scan_dummy_data fs).length
      = (fs.entries.filter fun e => e.isFile && e.stat.isSome).length := by
  rw [scan_unfold fs h1 h2, List.length_filterMap_eq_countP]
  simp only [isSome_scanStep]
  rw [(List.perm_insertionSort entryRel fs.entries).countP_eq, List.countP_eq_length_filter]

theorem scan_mem {fs : Filesystem} (h1 : fs.rootExists = true) (h2 : fs.rootIsDir = true)
    {e : FSEntry} (he : e ∈ fs.entries) (hf : e.isFile = true) {st : Stat}
    (hst : e.stat = some st) : mkRecord e st ∈ scan_dummy_data fs := by
  rw [scan_unfold fs h1 h2, List.mem_filterMap]
  refine ⟨e, (List.perm_insertionSort entryRel fs.entries).mem_iff.mpr he, ?_⟩
  rw [if_pos hf, hst]
  rfl

theorem scanStep_path {e : FSEntry} {r : FileRecord}
    (h : (if e.isFile then e.stat.map fun st => mkRecord e st else none) = some r) :
    r.path = e.path := by
  by_cases hf : e.isFile = true
  · rw [if_pos hf] at h
    cases hs : e.stat with
    | none => rw [hs] at h; exact absurd h (by simp)
    | some st =>
      rw [hs] at h
      simp only [Option.map_some'] at h
      rw [← Option.some_injective _ h]
      rfl
  · rw [if_neg hf] at h
    exact absurd h (by simp)

theorem pairwise_filterMap_of_pairwise {α β : Type} {R : α → α → Prop} {S : β → β → Prop}
    (f : α → Option β)
    (h : ∀ a a' b b', R a a' → f a = some b → f a' = some b' → S b b')
    {l : List α} (hl : l.Pairwise R) : (l.filterMap f).Pairwise S := by
  induction hl with
  | nil => simp
  | @cons a t hr _ ih =>
    rw [List.filterMap_cons]
    cases hfa : f a with
    | none => exact ih
    | some b =>
      refine List.Pairwise.cons ?_ ih
      intro b' hb'
      rcases List.mem_filterMap.mp hb' with ⟨a', ha', hfa'⟩
      exact h a a' b b' (hr a' ha') hfa hfa'

/-! ### Scanner claims -/

/-- C7: when the root does not exist or is not a directory, `scan_dummy_data`
returns the empty list — a normal result of the total (exception-free)
embedded function. -/
theorem C7_missing_root :
    ∀ fs : Filesystem, (fs.rootExists = false ∨ fs.rootIsDir = false) →
      scan_dummy_data fs = [] := by
  intro fs h
  unfold scan_dummy_data
  rw [if_neg]
  rintro ⟨h1, h2⟩
  rcases h with h | h <;> simp_all

def entReadable : FSEntry := ⟨"/r/a.txt", "a.txt", true, some ⟨2048, "2023-01-01T00:00:00"⟩⟩

def entBroken : FSEntry := ⟨"/r/b.txt", "b.txt", true, none⟩

def entDir : FSEntry := ⟨"/r/sub", "sub", false, none⟩

theorem C7_missing_root_witness :
    scan_dummy_data ⟨false, true, [entReadable]⟩ = [] :=
  C7_missing_root ⟨false, true, [entReadable]⟩ (Or.inl rfl)

/-- C8: a file whose metadata read fails (`stat = none`) is silently skipped
while the scan continues: the scan yields exactly one record per readable
regular file (the length equation), and every readable regular file's record
is present — so one unreadable file never aborts the scan. -/
theorem C8_partial_scan :
    ∀ fs : Filesystem, fs.rootExists = true → fs.rootIsDir = true →
      (scan_dummy_data fs).length
          = (fs.entries.filter fun e => e.isFile && e.stat.isSome).length ∧
        ∀ e ∈ fs.entries, e.isFile = true → ∀ st : Stat, e.stat = some st →
          mkRecord e st ∈ scan_dummy_data fs := by
  intro fs h1 h2
  exact ⟨scan_length fs h1 h2, fun e he hf st hst => scan_mem h1 h2 he hf hst⟩

def fsMixed : Filesystem := ⟨true, true, [entBroken, entReadable, entDir]⟩

theorem C8_partial_scan_witness :
    (scan_dummy_data fsMixed).length
        = (fsMixed.entries.filter fun e => e.isFile && e.stat.isSome).length ∧
      mkRecord entReadable ⟨2048, "2023-01-01T00:00:00"⟩ ∈ scan_dummy_data fsMixed :=
  ⟨(C8_partial_scan fsMixed rfl rfl).1,
   (C8_partial_scan fsMixed rfl rfl).2 entReadable (by decide) rfl
     ⟨2048, "2023-01-01T00:00:00"⟩ rfl⟩

def entReportCsv : FSEntry := ⟨"/r/report.csv", "report.csv", true, some ⟨100, "t1"⟩⟩

def entReportQ1 : FSEntry := ⟨"/r/report/q1.txt", "q1.txt", true, some ⟨50, "t2"⟩⟩

def fsTuple : Filesystem := ⟨true, true, [entReportCsv, entReportQ1]⟩

/-- C9 counterexample: the scan's output is not sorted by raw path string.
`sorted` over `Path`s compares component tuples, so with a directory `report`
next to a sibling file `report.csv` the scan emits `/r/report/q1.txt` before
`/r/report.csv`, while in code-point string order `'.' < '/'` puts
`/r/report.csv` first. -/
theorem C9_order_counterexample :
    ¬ (((scan_dummy_data fsTuple).map fun r => r.path).Pairwise fun a b => a ≤ b) := by
  intro h
  have heq : (scan_dummy_data fsTuple).map (fun r => r.path)
      = ["/r/report/q1.txt", "/r/report.csv"] := by decide
  rw [heq] at h
  have hle : ("/r/report/q1.txt" : String) ≤ "/r/report.csv" :=
    (List.pairwise_cons.mp h).1 _ (List.mem_singleton.mpr rfl)
  have hb : strLe "/r/report/q1.txt" "/r/report.csv" = true := (strLe_iff _ _).mpr hle
  exact absurd hb (by decide)

/-- C9 (amended): for an existing root directory (all regular files readable),
the scan lists one record per regular file in the traversal order, which is
`pathlib`'s sorted path order — lexicographic on the sequence of path
components, not on the raw path string (and not an order by name or size). -/
theorem C9_scan_order :
    ∀ fs : Filesystem, fs.rootExists = true → fs.rootIsDir = true →
      (∀ e ∈ fs.entries, e.isFile = true → e.stat.isSome = true) →
      ((scan_dummy_data fs).map fun r => r.path).Pairwise
          (fun p q => pathParts p ≤ pathParts q) ∧
        (scan_dummy_data fs).length = (fs.entries.filter fun e => e.isFile).length := by
  intro fs h1 h2 hread
  constructor
  · rw [scan_unfold fs h1 h2, List.pairwise_map]
    refine pairwise_filterMap_of_pairwise _ ?_
      (List.sorted_insertionSort entryRel fs.entries)
    intro a a' b b' hrel hfa hfa'
    rw [scanStep_path hfa, scanStep_path hfa']
    exact (partsLe_iff (pathParts a.path) (pathParts a'.path)).mp hrel
  · rw [scan_length fs h1 h2]
    congr 1
    apply List.filter_congr
    intro e he
    cases hf : e.isFile with
    | false => simp
    | true => simp [hread e he hf]

theorem C9_scan_order_witness :
    ((scan_dummy_data fsTuple).map fun r => r.path).Pairwise
        (fun p q => pathParts p ≤ pathParts q) ∧
      (scan_dummy_data fsTuple).length = (fsTuple.entries.filter fun e => e.isFile).length :=
  C9_scan_order fsTuple rfl rfl (by decide)

end DocSearch
